import Mathlib

/-
  Verification of an MQTT 3.1.1 broker (mqtt-core / mqtt-broker crates).

  The definitions below are a shallow embedding of the Rust source:
  pure functions become Lean functions, mutation becomes explicit state
  passing, machine integers become Nat with explicit bounds where the
  source relies on them, panics and todo branches become Option or Except
  failures.  Each definition names the source item it embeds.
-/

namespace Mqtt

set_option maxRecDepth 4096

/-! ## Topic algebra (src/mqtt-core/src/topic.rs)

A topic name or filter is a list of segment tokens.  The Rust enum
TopicToken has constructors Dollar, MultiLevel, SingleLevel, String. -/

inductive TopicToken where
  | dollar (s : String)
  | multi
  | single
  | strTok (s : String)
deriving DecidableEq, Repr

/-- Embeds the TopicToken PartialEq impl (topic.rs, impl PartialEq for
TopicToken): Dollar only equals an identical Dollar; the wildcards equal
anything that is not a Dollar; a plain string equals either wildcard or an
identical string. -/
def tokenEq : TopicToken → TopicToken → Bool
  | .dollar s, .dollar t => s == t
  | .dollar _, _ => false
  | .multi, .dollar _ => false
  | .multi, _ => true
  | .single, .dollar _ => false
  | .single, _ => true
  | .strTok _, .multi => true
  | .strTok _, .single => true
  | .strTok s, .strTok t => s == t
  | .strTok _, .dollar _ => false

/-- Embeds the inner loop of the TopicName / TopicFilter match (topic.rs,
PartialEq of TopicFilter for TopicName, MultiLevel branch): scan the rest of
the name; any Dollar segment rejects, exhaustion accepts. -/
def suffixFreeOfDollar : List TopicToken → Bool
  | [] => true
  | .dollar _ :: _ => false
  | _ :: rest => suffixFreeOfDollar rest

/-- Embeds the peek test of the matcher: the next filter token is the
multi-level wildcard. -/
def peekMulti : List TopicToken → Bool
  | .multi :: _ => true
  | _ => false

/-- Embeds impl PartialEq of TopicFilter for TopicName (topic.rs): walk name
and filter in lockstep; on a token match, if the next (peeked) filter token
is the multi-level wildcard the remaining name is scanned for Dollar
segments; both iterators exhausting together accepts, any other shape
rejects. -/
def topicNameMatches : List TopicToken → List TopicToken → Bool
  | n :: ns, f :: fs =>
      if tokenEq n f then
        if peekMulti fs then suffixFreeOfDollar ns
        else topicNameMatches ns fs
      else false
  | [], [] => true
  | _, _ => false

/-- Pairwise token match of a name prefix against a filter prefix, used to
state the corrected multi-level wildcard property. -/
def pairwiseTokEq : List TopicToken → List TopicToken → Bool
  | [], [] => true
  | a :: as_, b :: bs => tokenEq a b && pairwiseTokEq as_ bs
  | _, _ => false

/-- Modelled from the claim wording (not the source): a filter consisting
solely of the multi-level wildcard matches every nonempty name whose first
segment does not begin with a dollar sign. -/
def claimSolelyHashMatches : List TopicToken → Bool
  | [] => false
  | .dollar _ :: _ => false
  | _ :: _ => true

/-! ## CONNECT flags (src/mqtt-core/src/v3/connect.rs)

The flag byte constants: USERNAME = 128, PASSWORD = 64, WILL_RETAIN = 32,
WILL_QOS_BITS = 24, WILL = 4, CLEAN_SESSION = 2, RESERVED_BIT = 1. -/

inductive DecodeErrKind where
  | willQoS
  | protocolError
  | willErr
  | usernamePassword
deriving DecidableEq, Repr

structure ConnectFlags where
  byte : Nat
deriving DecidableEq, Repr

/-- Embeds ConnectFlags::from_byte (connect.rs).  Two conditions are kept
exactly as the Rust compiler parses them:
the first test is written byte AND WILL_QOS_BITS SHR 3 in the source, and
shift binds tighter than AND in Rust, so it tests byte AND 3 GT 3;
the password test masks byte with the complement of USERNAME (127) and
compares the result with USERNAME (128). -/
def connectFlagsFromByte (b : Nat) : Except DecodeErrKind ConnectFlags :=
  if b &&& (24 >>> 3) > 3 then .error .willQoS
  else if b &&& 1 == 1 then .error .protocolError
  else if b &&& 4 == 0 && !(b &&& 56 == 0) then .error .willErr
  else if b &&& 64 == 64 && (b &&& 127 == 128) then .error .usernamePassword
  else .ok ⟨b⟩

/-- Embeds ConnectFlags::clean_session (connect.rs): returns false when the
CLEAN_SESSION bit (value 2) is set, true when it is clear. -/
def cleanSessionFlag (b : Nat) : Bool :=
  if b &&& 2 == 2 then false else true

/-- Embeds ConnectFlags::set_clean_session (connect.rs): sets or clears the
CLEAN_SESSION bit (value 2). -/
def setCleanSession (b : Nat) (val : Bool) : Nat :=
  if val then b ||| 2 else b &&& 253

/-! ## QoS levels and the PUBLISH packet
(src/mqtt-core/src/qos.rs, src/mqtt-core/src/codec/v3/publish.rs) -/

inductive QoSLevelE where
  | atMostOnce
  | atLeastOnce
  | exactlyOnce
deriving DecidableEq, Repr

/-- Numeric value of a QoS level (the repr u8 of QosLevel). -/
def qosVal : QoSLevelE → Nat
  | .atMostOnce => 0
  | .atLeastOnce => 1
  | .exactlyOnce => 2

/-- Embeds the derived Ord of QosLevel used by min in the broker: minimum by
declaration order, which coincides with the numeric value. -/
def qosMin (a b : QoSLevelE) : QoSLevelE :=
  if qosVal a ≤ qosVal b then a else b

/-- Embeds PublishPacket (codec/v3/publish.rs): fixed-header flags DUP, QoS,
RETAIN, the topic name, the optional packet id (present exactly for QoS
above 0 on the wire), and the payload bytes. -/
structure PublishPacketE where
  dup : Bool
  qos : QoSLevelE
  retain : Bool
  topic : List TopicToken
  packetId : Option Nat
  payload : List Nat
deriving DecidableEq, Repr

/-- Embeds the control packets the broker emits in the claims under study
(v3::MqttPacket, restricted to the variants the theorems mention). -/
inductive MqttPacketE where
  | publishP (p : PublishPacketE)
  | pubAck (id : Nat)
  | pubRec (id : Nat)
  | pubRel (id : Nat)
  | pubComp (id : Nat)
deriving DecidableEq, Repr

/-! ## Packet-id allocator (src/mqtt-core/src/id.rs)

The id table is a predicate on ids (the bool array of the source); the
cursor is the field last.  u16 overflow in checked_incr becomes the explicit
bound 65535. -/

structure IdGen where
  last : Nat
  table : Nat → Bool

/-- Embeds checked_incr (id.rs): add 2 with u16 overflow check; on overflow
return the parity of the input. -/
def checkedIncr (i : Nat) : Nat :=
  if i + 2 ≤ 65535 then i + 2 else i % 2

/-- Fuel bound for the allocator scan loop: more than one full revolution of
the 2 to the 16 id space, so the loop always reaches its source exit. -/
def nextIdFuel : Nat := 131074

/-- Embeds the loop body of IdGenerator::next_id (id.rs): skip id 0, stop
with none after a full revolution (curr equal to the cursor), return the
first id whose table bit is clear, otherwise step by 2. -/
def nextIdAux (last : Nat) (table : Nat → Bool) : Nat → Nat → Option Nat
  | _, 0 => none
  | curr, fuel + 1 =>
      if curr = 0 then nextIdAux last table (checkedIncr curr) fuel
      else if curr = last then none
      else if table curr = false then some curr
      else nextIdAux last table (checkedIncr curr) fuel

/-- Embeds IdGenerator::next_id (id.rs): scan from the successor of the
cursor; on success the cursor moves to the returned id (the table is not
touched). -/
def IdGen.nextId (g : IdGen) : Option Nat × IdGen :=
  match nextIdAux g.last g.table (checkedIncr g.last) nextIdFuel with
  | some i => (some i, { last := i, table := g.table })
  | none => (none, g)

/-- Embeds IdGenerator::set_id (id.rs): mark an id as taken. -/
def IdGen.setId (g : IdGen) (i : Nat) : IdGen :=
  { last := g.last, table := fun j => if j = i then true else g.table j }

/-- Embeds IdGenerator::unset, also free_id (id.rs): mark an id as
available. -/
def IdGen.freeId (g : IdGen) (i : Nat) : IdGen :=
  { last := g.last, table := fun j => if j = i then false else g.table j }

/-- Embeds IdGenerator::next_persistant_id (id.rs): next_id, then mark the
returned id as taken. -/
def IdGen.nextPersistantId (g : IdGen) : Option Nat × IdGen :=
  match g.nextId with
  | (some i, g1) => (some i, g1.setId i)
  | (none, g1) => (none, g1)

/-- Embeds IdGenerator::new(IdGenType::Client) (id.rs): cursor at 65535,
empty table. -/
def freshClientGen : IdGen := { last := 65535, table := fun _ => false }

/-- Embeds IdGenerator::new(IdGenType::Broker) (id.rs): cursor at 65534,
empty table. -/
def freshBrokerGen : IdGen := { last := 65534, table := fun _ => false }

/-- State of a client-partition generator after k calls of
next_persistant_id starting from fresh. -/
def clientStateAfter : Nat → IdGen
  | 0 => freshClientGen
  | k + 1 => ((clientStateAfter k).nextPersistantId).2

/-- State of a broker-partition generator after k calls of
next_persistant_id starting from fresh. -/
def brokerStateAfter : Nat → IdGen
  | 0 => freshBrokerGen
  | k + 1 => ((brokerStateAfter k).nextPersistantId).2

/-! ## Message-assurance engine (src/mqtt-core/src/msg_assurance.rs)

Instants and Durations become Nat nanoseconds; a mutating method taking
Instant::now() becomes a function with an explicit now argument. -/

/-- Duration::MAX in nanoseconds (u64::MAX seconds plus 999999999 ns). -/
def durationMax : Nat := (2 ^ 64 - 1) * 1000000000 + 999999999

/-- Embeds the ExponentialBackoff impl of RetryDuration: checked_mul by 2,
Duration::MAX on overflow. -/
def retryExponential (d : Nat) : Nat :=
  if 2 * d ≤ durationMax then 2 * d else durationMax

/-- Embeds Default for RetryDuration: 200 milliseconds. -/
def retryBase : Nat := 200000000

inductive QoS2StageE where
  | origin
  | publish
  | recd
  | rel
  | comp
deriving DecidableEq, Repr

/-- Index of a QoS2 stage in declaration order, giving the derived Ord. -/
def stage2Val : QoS2StageE → Nat
  | .origin => 0
  | .publish => 1
  | .recd => 2
  | .rel => 3
  | .comp => 4

/-- Embeds ExactlyOncePacket: the tracked publish, the erased id under
which it is tracked, the stage, the last state change instant and the
current retry interval. -/
structure ExactlyOncePacketE where
  packet : PublishPacketE
  newId : Nat
  stage : QoS2StageE
  lastReceived : Nat
  retryDuration : Nat
deriving DecidableEq, Repr

inductive QoS1StageE where
  | origin
  | publish
  | ack
deriving DecidableEq, Repr

/-- Embeds AtLeastOncePacket. -/
structure AtLeastOncePacketE where
  packet : PublishPacketE
  newId : Nat
  stage : QoS1StageE
  lastReceived : Nat
  retryDuration : Nat
deriving DecidableEq, Repr

/-- The flag nibble of a PUBLISH packet: DUP is bit 3, QoS bits 2 and 1,
RETAIN bit 0 (codec/v3/publish.rs constants). -/
def flagsByte (p : PublishPacketE) : Nat :=
  (if p.dup then 8 else 0) + 2 * qosVal p.qos + (if p.retain then 1 else 0)

/-- Lexicographic order on tokens, mirroring the derived Ord of TopicToken
(declaration order Dollar, MultiLevel, SingleLevel, String). -/
def cmpToken : TopicToken → TopicToken → Ordering
  | .dollar s, .dollar t => compare s t
  | .dollar _, _ => .lt
  | .multi, .dollar _ => .gt
  | .multi, .multi => .eq
  | .multi, _ => .lt
  | .single, .dollar _ => .gt
  | .single, .multi => .gt
  | .single, .single => .eq
  | .single, .strTok _ => .lt
  | .strTok s, .strTok t => compare s t
  | .strTok _, _ => .gt

/-- Lexicographic order on token lists (derived Ord of Vec). -/
def cmpListToken : List TopicToken → List TopicToken → Ordering
  | [], [] => .eq
  | [], _ :: _ => .lt
  | _ :: _, [] => .gt
  | a :: as_, b :: bs => (cmpToken a b).then (cmpListToken as_ bs)

/-- None sorts before Some, as in the derived Ord of Option. -/
def cmpOptionNat : Option Nat → Option Nat → Ordering
  | none, none => .eq
  | none, some _ => .lt
  | some _, none => .gt
  | some a, some b => compare a b

/-- Lexicographic order on byte lists. -/
def cmpListNat : List Nat → List Nat → Ordering
  | [], [] => .eq
  | [], _ :: _ => .lt
  | _ :: _, [] => .gt
  | a :: as_, b :: bs => (compare a b).then (cmpListNat as_ bs)

/-- Derived Ord of PublishPacket: flags byte, then topic, then packet id,
then payload. -/
def cmpPublish (p q : PublishPacketE) : Ordering :=
  (compare (flagsByte p) (flagsByte q)).then
    ((cmpListToken p.topic q.topic).then
      ((cmpOptionNat p.packetId q.packetId).then
        (cmpListNat p.payload q.payload)))

/-- Derived Ord of ExactlyOncePacket: field order packet, new_id, stage,
last_received, retry_duration. -/
def cmpEOP (x y : ExactlyOncePacketE) : Ordering :=
  (cmpPublish x.packet y.packet).then
    ((compare x.newId y.newId).then
      ((compare (stage2Val x.stage) (stage2Val y.stage)).then
        ((compare x.lastReceived y.lastReceived).then
          (compare x.retryDuration y.retryDuration))))

/-- binary_search on a sorted vector finds an element exactly when an
Ord-equal element is present. -/
def containsEOP (l : List ExactlyOncePacketE) (x : ExactlyOncePacketE) : Bool :=
  l.any (fun y => cmpEOP x y == .eq)

/-- Insertion at the index reported by a failed binary_search: before the
first strictly greater element. -/
def insertSortedEOP (x : ExactlyOncePacketE) : List ExactlyOncePacketE → List ExactlyOncePacketE
  | [] => [x]
  | y :: ys => if cmpEOP x y == .gt then y :: insertSortedEOP x ys else x :: y :: ys

/-- Embeds ExactlyOncePacket::is_timed_out: now minus last_received
strictly exceeds the retry interval. -/
def eopIsTimedOut (now : Nat) (p : ExactlyOncePacketE) : Bool :=
  now - p.lastReceived > p.retryDuration

/-- Embeds ExactlyOncePacket::should_retry: only an entry in stage Origin
consults the timeout, every other stage answers false. -/
def eopShouldRetry (now : Nat) (p : ExactlyOncePacketE) : Bool :=
  match p.stage with
  | .origin => eopIsTimedOut now p
  | _ => false

/-- Embeds ExactlyOncePacket::get_retry_packet: stage Origin gives the
stored PUBLISH with the tracked id and DUP set; stage Rec gives a PUBREL;
every other stage gives none. -/
def eopGetRetryPacket (p : ExactlyOncePacketE) : Option MqttPacketE :=
  match p.stage with
  | .origin => some (.publishP { p.packet with packetId := some p.newId, dup := true })
  | .recd => some (.pubRel p.newId)
  | _ => none

/-- Embeds ExactlyOncePacket::update_retry_duration: apply the exponential
backoff to the interval. -/
def eopUpdateRetryDuration (p : ExactlyOncePacketE) : ExactlyOncePacketE :=
  { p with retryDuration := retryExponential p.retryDuration }

/-- Embeds AtLeastOncePacket::is_timed_out. -/
def alopIsTimedOut (now : Nat) (p : AtLeastOncePacketE) : Bool :=
  now - p.lastReceived > p.retryDuration

/-- Embeds AtLeastOncePacket::should_retry: Origin consults the timeout,
other stages answer false. -/
def alopShouldRetry (now : Nat) (p : AtLeastOncePacketE) : Bool :=
  match p.stage with
  | .origin => alopIsTimedOut now p
  | _ => false

/-- Embeds AtLeastOncePacket::get_retry_packet: stage Origin gives the
stored PUBLISH with DUP set (the id is left as stored); other stages give
none. -/
def alopGetRetryPacket (p : AtLeastOncePacketE) : Option MqttPacketE :=
  match p.stage with
  | .origin => some (.publishP { p.packet with dup := true })
  | _ => none

/-- Embeds AtLeastOncePacket::update_retry_duration. -/
def alopUpdateRetryDuration (p : AtLeastOncePacketE) : AtLeastOncePacketE :=
  { p with retryDuration := retryExponential p.retryDuration }

/-- Embeds ExactlyOnceList::origin: insert a fresh Origin entry at the
binary_search position; the todo branch taken when an Ord-equal entry is
already present becomes none.  Returns the updated list and the publish to
send, which is the input with the new id applied. -/
def eolOrigin (l : List ExactlyOncePacketE) (pkt : PublishPacketE) (newId now : Nat) :
    Option (List ExactlyOncePacketE × PublishPacketE) :=
  let entry : ExactlyOncePacketE :=
    { packet := pkt, newId := newId, stage := .origin, lastReceived := now, retryDuration := retryBase }
  if containsEOP l entry then none
  else some (insertSortedEOP entry l, { pkt with packetId := some newId })

/-- Embeds ExactlyOnceList::publish: a fresh Publish-stage entry is pushed
(or, for a DUP packet, inserted at the binary_search position unless an
Ord-equal entry is already present, in which case nothing is stored and no
PUBREC is produced).  The second component is the id a PUBREC should answer
with, none when the packet was already received. -/
def eolPublish (l : List ExactlyOncePacketE) (pkt : PublishPacketE) (newId now : Nat) :
    List ExactlyOncePacketE × Option Nat :=
  let isDuplicate := pkt.dup
  let entry : ExactlyOncePacketE :=
    { packet := pkt, newId := newId, stage := .publish, lastReceived := now, retryDuration := retryBase }
  if isDuplicate then
    if containsEOP l entry then (l, none)
    else (insertSortedEOP entry l, some newId)
  else (l ++ [entry], some newId)

/-- Embeds ExactlyOnceList::clean: remove every entry in stage Comp or Rel,
returning their ids in list order. -/
def eolClean (l : List ExactlyOncePacketE) : List Nat × List ExactlyOncePacketE :=
  ((l.filter (fun p => p.stage == .comp || p.stage == .rel)).map (fun p => p.newId),
   l.filter (fun p => !(p.stage == .comp || p.stage == .rel)))

/-- Embeds AtLeastOnceList::origin: push an Origin entry; the returned
publish is the input with the new id applied. -/
def alolOrigin (l : List AtLeastOncePacketE) (pkt : PublishPacketE) (newId now : Nat) :
    List AtLeastOncePacketE × PublishPacketE :=
  (l ++ [{ packet := pkt, newId := newId, stage := .origin, lastReceived := now, retryDuration := retryBase }],
   { pkt with packetId := some newId })

/-- Embeds AtLeastOnceList::acknowledge: every entry with the id moves to
stage Ack with the instant refreshed. -/
def alolAcknowledge (l : List AtLeastOncePacketE) (id now : Nat) : List AtLeastOncePacketE :=
  l.map (fun p => if p.newId = id then { p with stage := .ack, lastReceived := now } else p)

/-- Embeds AtLeastOnceList::clean: remove every entry in stage Ack,
returning their ids in list order. -/
def alolClean (l : List AtLeastOncePacketE) : List Nat × List AtLeastOncePacketE :=
  ((l.filter (fun p => p.stage == .ack)).map (fun p => p.newId),
   l.filter (fun p => !(p.stage == .ack)))

/-! ## Association-list views of the shared hash maps -/

/-- HashMap::get on an association list view. -/
def lookupAssoc {κ α : Type} [DecidableEq κ] : List (κ × α) → κ → Option α
  | [], _ => none
  | (k, v) :: rest, key => if k = key then some v else lookupAssoc rest key

/-- HashMap::remove: drop the entry with the key. -/
def removeAssoc {κ α : Type} [DecidableEq κ] : List (κ × α) → κ → List (κ × α)
  | [], _ => []
  | (k, v) :: rest, key => if k = key then removeAssoc rest key else (k, v) :: removeAssoc rest key

/-- HashMap::insert: replace the entry with the key, or append a new one. -/
def updateAssoc {κ α : Type} [DecidableEq κ] (l : List (κ × α)) (key : κ) (v : α) : List (κ × α) :=
  if (lookupAssoc l key).isSome
  then l.map (fun kv => if kv.1 = key then (key, v) else kv)
  else l ++ [(key, v)]

/-! ## Sessions (src/mqtt-broker/src/session.rs) -/

/-- Embeds Will (connect.rs): at-disconnect message. -/
structure WillE where
  topic : List TopicToken
  message : List Nat
  qos : QoSLevelE
  retain : Bool
deriving DecidableEq, Repr

/-- Embeds ActiveSession (session.rs): client id, optional will, keep-alive
seconds, instant of the last inbound frame, subscribed filters, the two
inflight lists and the packet-id allocator. -/
structure ActiveSessionE where
  clientId : String
  will : Option WillE
  keepAlive : Nat
  lastRead : Nat
  topicFilters : List (List TopicToken)
  qos1 : List AtLeastOncePacketE
  qos2 : List ExactlyOncePacketE
  idGen : IdGen

/-- Embeds DisconnectedSession (session.rs). -/
structure DcSessionE where
  clientId : String
  keepAlive : Nat
  lastRead : Nat
  qos1 : List AtLeastOncePacketE
  qos2 : List ExactlyOncePacketE
  topicFilters : List (List TopicToken)

/-- Embeds the From impl turning an ActiveSession into a
DisconnectedSession. -/
def dcOfActive (s : ActiveSessionE) : DcSessionE :=
  { clientId := s.clientId, keepAlive := s.keepAlive, lastRead := s.lastRead,
    qos1 := s.qos1, qos2 := s.qos2, topicFilters := s.topicFilters }

/-- Embeds DisconnectedSessions::remove_session: HashMap::remove returning
the removed entry and the rest of the registry. -/
def removeSession (reg : List (String × DcSessionE)) (id : String) :
    Option DcSessionE × List (String × DcSessionE) :=
  (lookupAssoc reg id, removeAssoc reg id)

/-- Embeds DisconnectedSessions::add_session: insert keyed by the client
id. -/
def addSession (reg : List (String × DcSessionE)) (s : DcSessionE) :
    List (String × DcSessionE) :=
  updateAssoc reg s.clientId s

/-- Embeds ActiveSession::timed_out (session.rs): seconds elapsed since the
last inbound frame strictly exceed the keep-alive value.  No factor of 1.5
appears in the source. -/
def sessionTimedOut (s : ActiveSessionE) (nowSecs : Nat) : Bool :=
  nowSecs - s.lastRead > s.keepAlive

/-- Modelled from the claim wording (not the source): timed out when the
elapsed seconds exceed keep-alive times 1.5. -/
def claimTimedOut (elapsedSecs keepAlive : Nat) : Bool :=
  2 * elapsedSecs > 3 * keepAlive

/-- Embeds ActiveSession::next_id: delegate to the id generator (next_id,
which moves the cursor but does not mark the id as taken). -/
def sessionNextId (s : ActiveSessionE) : Option Nat × ActiveSessionE :=
  match s.idGen.nextId with
  | (i, g) => (i, { s with idGen := g })

/-- Embeds ActiveSession::clean_session (session.rs): when an inflight list
exceeds u16::MAX / 16 = 4095 entries, drop its terminal-stage entries and
free their ids. -/
def sessionCleanSession (s : ActiveSessionE) : ActiveSessionE :=
  let s1 :=
    if s.qos1.length > 4095 then
      let (ids, l) := alolClean s.qos1
      { s with qos1 := l, idGen := ids.foldl IdGen.freeId s.idGen }
    else s
  if s1.qos2.length > 4095 then
    let (ids, l) := eolClean s1.qos2
    { s1 with qos2 := l, idGen := ids.foldl IdGen.freeId s1.idGen }
  else s1

/-- Embeds ActiveSession::origin (session.rs): draw the next id, then for
QoS 0 return the packet unchanged, for QoS 1 or 2 insert an Origin entry in
the matching list and return the packet with the id applied.  The unwrap of
an exhausted allocator and the todo branch of ExactlyOnceList::origin
become none. -/
def sessionOrigin (s : ActiveSessionE) (pkt : PublishPacketE) (now : Nat) :
    Option (PublishPacketE × ActiveSessionE) :=
  match sessionNextId s with
  | (newId, s1) =>
    match pkt.qos with
    | .atMostOnce => some (pkt, s1)
    | .atLeastOnce =>
        match newId with
        | some i =>
            match alolOrigin s1.qos1 pkt i now with
            | (l, q) => some (q, { s1 with qos1 := l })
        | none => none
    | .exactlyOnce =>
        match newId with
        | some i =>
            match eolOrigin s1.qos2 pkt i now with
            | some (l, q) => some (q, { s1 with qos2 := l })
            | none => none
        | none => none

/-- Embeds ActiveSession::publish (session.rs): unwrap the incoming packet
id (none on a missing id) and record the packet in the QoS 2 list; the
second component is the id a PUBREC should be sent for, none when the list
already held the packet. -/
def sessionPublish (s : ActiveSessionE) (pkt : PublishPacketE) (now : Nat) :
    Option (Option Nat × ActiveSessionE) :=
  match pkt.packetId with
  | none => none
  | some id =>
      match eolPublish s.qos2 pkt id now with
      | (l, recId) => some (recId, { s with qos2 := l })

/-! ## Topic registry (src/mqtt-broker/src/topic.rs) -/

/-- Embeds ServerTopic: the retained slot and the maximum QoS granted on
the topic.  The broadcast channel is represented by the list of routed
packets the send produces. -/
structure ServerTopicE where
  retainedMessage : Option PublishPacketE
  maxQos : QoSLevelE

/-- Embeds ServerTopics: the map from topic names to topics plus the
configured defaults for new topics. -/
structure ServerTopicsE where
  topics : List (List TopicToken × ServerTopicE)
  maxQos : QoSLevelE

/-- Embeds ServerTopic::retain_message: an empty payload clears the slot, a
nonempty one replaces it. -/
def serverTopicRetain (t : ServerTopicE) (msg : PublishPacketE) : ServerTopicE :=
  if msg.payload.length = 0 then { t with retainedMessage := none }
  else { t with retainedMessage := some msg }

/-- Embeds ServerTopics::create_topic: insert a fresh topic (empty retained
slot) under the name. -/
def createTopic (ts : ServerTopicsE) (name : List TopicToken) : ServerTopicsE :=
  { ts with topics := updateAssoc ts.topics name { retainedMessage := none, maxQos := ts.maxQos } }

/-- Embeds ServerTopics::retain_message: update the retained slot of the
packet's topic; the unreachable branch taken when the topic map has no
entry for the topic becomes none. -/
def retainMessage (ts : ServerTopicsE) (pkt : PublishPacketE) : Option ServerTopicsE :=
  match lookupAssoc ts.topics pkt.topic with
  | some t => some { ts with topics := updateAssoc ts.topics pkt.topic (serverTopicRetain t pkt) }
  | none => none

/-- Embeds MqttServer::publish_to_topic (main.rs): if the topic exists the
packet is sent on its channel (modelled as the routed list); otherwise a
fresh topic keyed by the packet's own topic name is created and nothing is
routed. -/
def publishToTopic (ts : ServerTopicsE) (pkt : PublishPacketE) :
    ServerTopicsE × List PublishPacketE :=
  match lookupAssoc ts.topics pkt.topic with
  | some _ => (ts, [pkt])
  | none => (createTopic ts pkt.topic, [])

/-! ## Connection runtime (src/mqtt-broker/src/main.rs) -/

/-- Embeds the Publish arm of handle_packet (main.rs): clear DUP, run the
retained-message update when RETAIN is set (this can reach the unreachable
branch, none), clear RETAIN, then dispatch on QoS: QoS 2 records the packet
and answers PUBREC without routing; QoS 1 answers PUBACK and routes; QoS 0
just routes.  The result is the topic registry, the session, the packets
written to the client and the payloads handed to the router. -/
def handlePublishArm (ts : ServerTopicsE) (s : ActiveSessionE) (pkt0 : PublishPacketE)
    (now : Nat) :
    Option (ServerTopicsE × ActiveSessionE × List MqttPacketE × List PublishPacketE) :=
  let pkt := { pkt0 with dup := false }
  let afterRetain : Option ServerTopicsE :=
    if pkt.retain then retainMessage ts pkt else some ts
  match afterRetain with
  | none => none
  | some ts1 =>
    let pkt2 := { pkt with retain := false }
    match pkt2.qos with
    | .exactlyOnce =>
        match sessionPublish s pkt2 now with
        | none => none
        | some (some i, s2) => some (ts1, s2, [.pubRec i], [])
        | some (none, s2) => some (ts1, s2, [], [])
    | .atLeastOnce =>
        match pkt2.packetId with
        | none => none
        | some i =>
            match publishToTopic ts1 pkt2 with
            | (ts2, routed) => some (ts2, s, [.pubAck i], routed)
    | .atMostOnce =>
        match publishToTopic ts1 pkt2 with
        | (ts2, routed) => some (ts2, s, [], routed)

/-- Embeds subscribe_to_topic_filter (topic.rs): walk the topic map; for
each topic whose name matches the filter, first send the retained message
(if any) through ActiveSession::origin, then add a mailbox slot granting
the minimum of the requested QoS and the topic's maximum.  Returns whether
any topic matched, the retained publishes sent, the slots added and the
session. -/
def subscribeToTopicFilter :
    List (List TopicToken × ServerTopicE) → ActiveSessionE → List TopicToken → QoSLevelE → Nat →
    Option (Bool × List PublishPacketE × List (List TopicToken × QoSLevelE) × ActiveSessionE)
  | [], s, _, _, _ => some (false, [], [], s)
  | (name, topic) :: rest, s, filt, subQos, now =>
      if topicNameMatches name filt then
        let afterRetained : Option (List PublishPacketE × ActiveSessionE) :=
          match topic.retainedMessage with
          | some r =>
              match sessionOrigin s r now with
              | some (q, s2) => some ([q], s2)
              | none => none
          | none => some ([], s)
        match afterRetained with
        | none => none
        | some (sent0, s2) =>
            match subscribeToTopicFilter rest s2 filt subQos now with
            | none => none
            | some (_, sentR, mailR, s3) =>
                some (true, sent0 ++ sentR, (name, qosMin subQos topic.maxQos) :: mailR, s3)
      else
        match subscribeToTopicFilter rest s filt subQos now with
        | none => none
        | some (allowed, sentR, mailR, s3) => some (allowed, sentR, mailR, s3)

/-- Modelled from the claim wording (not the source): the QoS of a retained
message delivered on subscribe should be the minimum of the requested QoS
and the retained message's QoS. -/
def claimRetainedDeliveryQos (subQos : QoSLevelE) (retained : PublishPacketE) : QoSLevelE :=
  qosMin subQos retained.qos

/-- Result of one pass of the inbound read loop (handle_session, main.rs). -/
inductive ReadLoopResult where
  | closedOk
  | dispatch (s : ActiveSessionE) (pkt : MqttPacketE)

/-- Embeds the read step of handle_session (main.rs): when a frame has
arrived, a timed-out session exits the loop without error; otherwise
last_read is refreshed and the frame is dispatched. -/
def readLoopStep (s : ActiveSessionE) (nowSecs : Nat) (pkt : MqttPacketE) : ReadLoopResult :=
  if sessionTimedOut s nowSecs then .closedOk
  else .dispatch { s with lastRead := nowSecs } pkt

/-- Embeds MqttServer::publish_will (main.rs): no will means no effect;
otherwise build the will publish, allocate an id for QoS above 0 (running
clean_session and retrying once when the allocator is exhausted, the final
expect becoming none), then retain the packet when will-retain is set
(which can reach the unreachable branch) and route it. -/
def publishWill (ts : ServerTopicsE) (s : ActiveSessionE) :
    Option (ServerTopicsE × List PublishPacketE × ActiveSessionE) :=
  match s.will with
  | none => some (ts, [], s)
  | some w =>
    let base : PublishPacketE :=
      { dup := false, qos := .atMostOnce, retain := false,
        topic := w.topic, packetId := none, payload := w.message }
    let withId : Option (PublishPacketE × ActiveSessionE) :=
      match w.qos with
      | .atMostOnce => some (base, s)
      | .atLeastOnce =>
          match sessionNextId s with
          | (some i, s1) => some ({ base with qos := .atLeastOnce, packetId := some i }, s1)
          | (none, s1) =>
              match sessionNextId (sessionCleanSession s1) with
              | (some i, s2) => some ({ base with qos := .atLeastOnce, packetId := some i }, s2)
              | (none, _) => none
      | .exactlyOnce =>
          match sessionNextId s with
          | (some i, s1) => some ({ base with qos := .exactlyOnce, packetId := some i }, s1)
          | (none, s1) =>
              match sessionNextId (sessionCleanSession s1) with
              | (some i, s2) => some ({ base with qos := .exactlyOnce, packetId := some i }, s2)
              | (none, _) => none
    match withId with
    | none => none
    | some (pkt, s2) =>
        if w.retain then
          match retainMessage ts pkt with
          | none => none
          | some ts1 =>
              match publishToTopic ts1 pkt with
              | (ts2, routed) => some (ts2, routed, s2)
        else
          match publishToTopic ts pkt with
          | (ts2, routed) => some (ts2, routed, s2)

/-- How handle_session ended: Ok covers both an orderly DISCONNECT and a
keep-alive timeout; Err covers every transport or protocol error. -/
inductive SessionOutcome where
  | okClosed
  | errClosed

/-- Embeds the tail of handle_client (main.rs): on Ok the session is simply
dropped; on Err the will is published and the session is added to the
disconnected registry.  No clean-session flag is consulted (ActiveSession
does not carry one). -/
def handleClientEnd (ts : ServerTopicsE) (s : ActiveSessionE)
    (reg : List (String × DcSessionE)) (outcome : SessionOutcome) :
    Option (ServerTopicsE × List PublishPacketE × List (String × DcSessionE)) :=
  match outcome with
  | .okClosed => some (ts, [], reg)
  | .errClosed =>
      match publishWill ts s with
      | none => none
      | some (ts2, routed, s2) => some (ts2, routed, addSession reg (dcOfActive s2))

/-- Modelled from the claim wording (not the source): at termination the
session should be kept in the disconnected registry exactly when its
clean-session flag is false. -/
def claimSessionKept (cleanSession : Bool) : Bool :=
  !cleanSession

/-- Embeds the registry consultation of handle_connect_packet (main.rs):
remove any stored session for the client id; when one exists and the
packet's clean_session() accessor says false, resume it with
session_present set; otherwise start fresh with session_present clear.  The
first component is the CONNACK session-present flag, the last the resumed
history (none for a fresh session). -/
def handleConnect (reg : List (String × DcSessionE)) (clientId : String) (flagByte : Nat) :
    Bool × List (String × DcSessionE) × Option DcSessionE :=
  match removeSession reg clientId with
  | (some dc, reg2) =>
      if cleanSessionFlag flagByte then (false, reg2, none)
      else (true, reg2, some dc)
  | (none, reg2) => (false, reg2, none)

/-! ## Concrete instances used by witnesses and counterexamples -/

/-- A broker-side session with empty inflight lists, keep-alive 2 seconds,
last frame at instant 0. -/
def sampleSession : ActiveSessionE :=
  { clientId := "c", will := none, keepAlive := 2, lastRead := 0,
    topicFilters := [], qos1 := [], qos2 := [], idGen := freshBrokerGen }

/-- An empty topic registry with maximum QoS 2. -/
def sampleTopics : ServerTopicsE := { topics := [], maxQos := .exactlyOnce }

/-- A stored disconnected session for client id c. -/
def sampleDc : DcSessionE :=
  { clientId := "c", keepAlive := 60, lastRead := 0, qos1 := [], qos2 := [], topicFilters := [] }

/-- A retained QoS 2 PUBLISH for topic t, stored with its RETAIN bit set. -/
def c6retained : PublishPacketE :=
  { dup := false, qos := .exactlyOnce, retain := true,
    topic := [.strTok "t"], packetId := none, payload := [104, 105] }

/-- A topic map holding one topic t with the retained message above. -/
def c6topics : List (List TopicToken × ServerTopicE) :=
  [([.strTok "t"], { retainedMessage := some c6retained, maxQos := .exactlyOnce })]

/-- A QoS 2 inflight entry sitting in stage Rec since instant 0 with the
default retry interval. -/
def c4recPacket : ExactlyOncePacketE :=
  { packet := { dup := false, qos := .exactlyOnce, retain := false,
                topic := [.strTok "t"], packetId := some 5, payload := [1] },
    newId := 5, stage := .recd, lastReceived := 0, retryDuration := retryBase }

/-- A QoS 2 inflight entry sitting in stage Origin. -/
def c4originPacket : ExactlyOncePacketE :=
  { packet := { dup := false, qos := .exactlyOnce, retain := false,
                topic := [.strTok "t"], packetId := some 9, payload := [2] },
    newId := 9, stage := .origin, lastReceived := 0, retryDuration := retryBase }

/-- A QoS 1 inflight entry sitting in stage Origin. -/
def c4qos1Packet : AtLeastOncePacketE :=
  { packet := { dup := false, qos := .atLeastOnce, retain := false,
                topic := [.strTok "t"], packetId := some 3, payload := [7] },
    newId := 4, stage := .origin, lastReceived := 0, retryDuration := retryBase }

/-- An inbound QoS 2 PUBLISH carrying packet id 7. -/
def c3publish : PublishPacketE :=
  { dup := false, qos := .exactlyOnce, retain := false,
    topic := [.strTok "t"], packetId := some 7, payload := [104] }

/-- An inbound retained PUBLISH addressed to a topic the registry does not
hold. -/
def c5publish : PublishPacketE :=
  { dup := false, qos := .atMostOnce, retain := true,
    topic := [.strTok "t"], packetId := none, payload := [104] }

/-! # Theorems -/

/-- Claim C1.  The claim says a CONNECT whose clean-session flag is false
resumes a stored session with session_present = 1 and a CONNECT whose
clean-session flag is true discards it with session_present = 0.  The code
inverts the flag: ConnectFlags::clean_session returns false exactly when
the CLEAN_SESSION wire bit is set, contradicting its own setter, so a
CONNECT with the wire bit set (flag byte 2) resumes the stored session with
session_present = 1, and one with the bit clear (flag byte 0) discards it.
The final conjuncts record the part of the claim the code does satisfy: the
registry no longer holds the client id afterwards. -/
theorem C1_code_bug_eval :
    cleanSessionFlag (setCleanSession 0 true) = false
  ∧ cleanSessionFlag 2 = false
  ∧ cleanSessionFlag 0 = true
  ∧ handleConnect [("c", sampleDc)] "c" 2 = (true, [], some sampleDc)
  ∧ handleConnect [("c", sampleDc)] "c" 0 = (false, [], none)
  ∧ lookupAssoc (handleConnect [("c", sampleDc)] "c" 2).2.1 "c" = none
  ∧ lookupAssoc (handleConnect [("c", sampleDc)] "c" 0).2.1 "c" = none := by
  refine ⟨rfl, rfl, rfl, ?_, ?_, rfl, rfl⟩ <;> rfl

/-- Claim C9.  The claim says the CONNECT flag decoder rejects a set
Password flag with a clear Username flag and rejects Will-QoS 3.  Both
checks are dead in the source: the Will-QoS test compares byte AND 3 with 3
because shift binds tighter than AND, and the password test compares a
7-bit masked value with 128.  Byte 64 (password only) and byte 28 (Will
with both QoS bits) are accepted.  The last two conjuncts show the reserved
bit and will-bits checks of the claim do fire. -/
theorem C9_code_bug_eval :
    connectFlagsFromByte 64 = .ok ⟨64⟩
  ∧ connectFlagsFromByte 28 = .ok ⟨28⟩
  ∧ connectFlagsFromByte 1 = .error .protocolError
  ∧ connectFlagsFromByte 40 = .error .willErr := by
  refine ⟨rfl, rfl, rfl, rfl⟩

/-- Claim C7, counterexample.  The claim says the broker times a connection
out exactly when the elapsed time exceeds keep-alive times 1.5.  With
keep-alive 2 and 3 elapsed seconds the code (elapsed greater than
keep-alive, no factor) reports a timeout while the claimed bound (3 is not
greater than 3) does not. -/
theorem C7_counterexample :
    sessionTimedOut sampleSession 3 = true
  ∧ claimTimedOut 3 2 = false
  ∧ readLoopStep sampleSession 3 (.pubAck 1) = .closedOk := by
  refine ⟨rfl, rfl, ?_⟩
  simp [readLoopStep, sessionTimedOut, sampleSession]

/-- Claim C7 as amended: the broker treats a connection as timed out (and
closes it without error) exactly when the seconds elapsed since the last
inbound frame exceed the keep-alive value itself (factor 1, not 1.5); when
a frame arrives within that window, last_read is updated and the frame is
dispatched. -/
theorem C7_amended (s : ActiveSessionE) (nowSecs : Nat) (pkt : MqttPacketE) :
    (sessionTimedOut s nowSecs = decide (nowSecs - s.lastRead > s.keepAlive))
  ∧ (sessionTimedOut s nowSecs = true → readLoopStep s nowSecs pkt = .closedOk)
  ∧ (sessionTimedOut s nowSecs = false →
      readLoopStep s nowSecs pkt = .dispatch { s with lastRead := nowSecs } pkt) := by
  refine ⟨rfl, ?_, ?_⟩ <;> intro h <;> simp [readLoopStep, h]

/-- Witness for the amended claim C7: a frame arriving 2 seconds into a
2-second keep-alive window is dispatched with last_read refreshed. -/
theorem C7_amended_witness :
    readLoopStep sampleSession 2 (.pubAck 1) =
      .dispatch { sampleSession with lastRead := 2 } (.pubAck 1) :=
  (C7_amended sampleSession 2 (.pubAck 1)).2.2 rfl

/-- Claim C5: ServerTopics::retain_message reaches its unreachable branch
exactly when the topic map has no entry for the packet's topic, and the
Publish arm of handle_packet runs it (on a RETAIN packet) before
publish_to_topic can create the entry, so the first retained publish to a
not-yet-existing topic panics instead of storing the message. -/
theorem C5_retain_panics (ts : ServerTopicsE) (s : ActiveSessionE) (pkt : PublishPacketE)
    (now : Nat) :
    (retainMessage ts pkt = none ↔ lookupAssoc ts.topics pkt.topic = none)
  ∧ (pkt.retain = true → lookupAssoc ts.topics pkt.topic = none →
      handlePublishArm ts s pkt now = none) := by
  constructor
  · unfold retainMessage
    cases h : lookupAssoc ts.topics pkt.topic <;> simp [h]
  · intro hr hl
    simp [handlePublishArm, hr, retainMessage, hl]

/-- Witness for claim C5: an empty registry and a retained publish to topic
t reach the panic. -/
theorem C5_retain_panics_witness :
    handlePublishArm sampleTopics sampleSession c5publish 0 = none :=
  (C5_retain_panics sampleTopics sampleSession c5publish 0).2 rfl rfl

/-- Claim C4, counterexample.  The claim says an entry in stage Rec whose
interval elapsed is retried with a PUBREL.  The source should_retry answers
false for every stage except Origin, so this Rec entry, one second past its
200 ms interval and with a PUBREL retry packet available, is never
retried. -/
theorem C4_counterexample :
    eopShouldRetry 1000000000 c4recPacket = false
  ∧ c4recPacket.stage = .recd
  ∧ 1000000000 - c4recPacket.lastReceived > c4recPacket.retryDuration
  ∧ eopGetRetryPacket c4recPacket = some (.pubRel 5) := by
  refine ⟨rfl, rfl, by decide, rfl⟩

/-- Claim C4 as amended: an inflight entry is retried exactly when now
minus last_state_change exceeds its retry_interval and its stage is Origin
(for both QoS 1 and QoS 2); the emitted retry packet for stage Origin is
the stored PUBLISH with DUP = 1; after each retry the interval becomes the
minimum of twice itself and Duration::MAX; and entries in stage Ack, Comp,
Rel, Publish, and also Rec, are never retried. -/
theorem C4_amended (now : Nat) (p : ExactlyOncePacketE) (q : AtLeastOncePacketE) :
    (eopShouldRetry now p =
      (decide (p.stage = .origin) && decide (now - p.lastReceived > p.retryDuration)))
  ∧ (alopShouldRetry now q =
      (decide (q.stage = .origin) && decide (now - q.lastReceived > q.retryDuration)))
  ∧ (p.stage = .origin →
      eopGetRetryPacket p = some (.publishP { p.packet with packetId := some p.newId, dup := true }))
  ∧ (q.stage = .origin →
      alopGetRetryPacket q = some (.publishP { q.packet with dup := true }))
  ∧ ((eopUpdateRetryDuration p).retryDuration = min (2 * p.retryDuration) durationMax)
  ∧ ((alopUpdateRetryDuration q).retryDuration = min (2 * q.retryDuration) durationMax) := by
  obtain ⟨pp, pn, pst, plr, prd⟩ := p
  obtain ⟨qp, qn, qst, qlr, qrd⟩ := q
  refine ⟨?_, ?_, ?_, ?_, ?_, ?_⟩
  · cases pst <;> simp [eopShouldRetry, eopIsTimedOut]
  · cases qst <;> simp [alopShouldRetry, alopIsTimedOut]
  · intro h
    cases pst <;> simp_all [eopGetRetryPacket]
  · intro h
    cases qst <;> simp_all [alopGetRetryPacket]
  · simp [eopUpdateRetryDuration, retryExponential, Nat.min_def]
  · simp [alopUpdateRetryDuration, retryExponential, Nat.min_def]

/-- Witness for the amended claim C4: a stage-Origin QoS 2 entry past its
interval is retried as the stored PUBLISH with the tracked id and
DUP = 1. -/
theorem C4_amended_witness :
    eopGetRetryPacket c4originPacket =
      some (.publishP { c4originPacket.packet with packetId := some 9, dup := true }) :=
  (C4_amended 1000000000 c4originPacket c4qos1Packet).2.2.1 rfl

/-- Claim C3: on the receiver side of a QoS 2 exchange, every inbound QoS 2
PUBLISH (first delivery or DUP re-delivery while the entry is in stage
Publish) appends a Publish-stage entry, answers with exactly one PUBREC for
its id, and routes nothing to subscribers: the payload is only released on
PUBREL, so repeated delivery is route-idempotent while PUBREC is
re-emitted.  The conclusion holds for every session state, hence both for
the first delivery and for a DUP = 1 re-delivery with the same id (the
broker clears DUP before consulting the list, so the duplicate branch of
ExactlyOnceList::publish that would suppress the PUBREC is not taken). -/
theorem C3_qos2_receiver (ts : ServerTopicsE) (s : ActiveSessionE) (pkt : PublishPacketE)
    (now id : Nat) (hq : pkt.qos = .exactlyOnce) (hr : pkt.retain = false)
    (hid : pkt.packetId = some id) :
    handlePublishArm ts s pkt now =
      some (ts,
        { s with qos2 := s.qos2 ++
            [{ packet := { pkt with dup := false, retain := false }, newId := id,
               stage := .publish, lastReceived := now, retryDuration := retryBase }] },
        [.pubRec id], []) := by
  obtain ⟨d, q, r, t, pid, pl⟩ := pkt
  simp only at hq hr hid
  subst hq hr hid
  simp [handlePublishArm, sessionPublish, eolPublish]

/-- Witness for claim C3: delivering the QoS 2 publish with id 7 to the
sample session appends the Publish-stage entry, emits PUBREC 7 and routes
nothing; the same conclusion applies verbatim to the session that already
holds the entry. -/
theorem C3_qos2_receiver_witness :
    handlePublishArm sampleTopics sampleSession c3publish 0 =
      some (sampleTopics,
        { sampleSession with qos2 :=
            [{ packet := { c3publish with dup := false, retain := false }, newId := 7,
               stage := .publish, lastReceived := 0, retryDuration := retryBase }] },
        [.pubRec 7], []) :=
  C3_qos2_receiver sampleTopics sampleSession c3publish 0 7 rfl rfl rfl

/-- Claim C8, counterexample.  The claim says the session is added to the
disconnected registry if and only if its clean-session flag is false.  The
code never consults that flag at termination: an orderly DISCONNECT (the Ok
path) drops the session even when its CONNECT carried clean-session false,
and an error adds it even when its CONNECT carried clean-session true. -/
theorem C8_counterexample :
    handleClientEnd sampleTopics sampleSession [] .okClosed = some (sampleTopics, [], [])
  ∧ claimSessionKept false = true
  ∧ handleClientEnd sampleTopics sampleSession [] .errClosed =
      some (sampleTopics, [], [("c", dcOfActive sampleSession)])
  ∧ claimSessionKept true = false := by
  refine ⟨rfl, rfl, rfl, rfl⟩

/-- Claim C8 as amended: on an error termination the will (if any) is
published through the router and the session is always added to the
disconnected registry, regardless of any clean-session flag (the active
session does not carry one); on an orderly DISCONNECT, and likewise on a
keep-alive timeout (both return Ok), no will is published and the session
is dropped without being added. -/
theorem C8_amended (ts : ServerTopicsE) (s : ActiveSessionE)
    (reg : List (String × DcSessionE)) :
    (handleClientEnd ts s reg .okClosed = some (ts, [], reg))
  ∧ (s.will = none →
      handleClientEnd ts s reg .errClosed = some (ts, [], addSession reg (dcOfActive s)))
  ∧ (∀ w t, s.will = some w → w.qos = .atMostOnce → w.retain = false →
      lookupAssoc ts.topics w.topic = some t →
      handleClientEnd ts s reg .errClosed =
        some (ts,
          [{ dup := false, qos := .atMostOnce, retain := false,
             topic := w.topic, packetId := none, payload := w.message }],
          addSession reg (dcOfActive s))) := by
  refine ⟨rfl, ?_, ?_⟩
  · intro h
    simp [handleClientEnd, publishWill, h]
  · intro w t hw hq hr ht
    simp [handleClientEnd, publishWill, hw, hq, hr, publishToTopic, ht]

/-- Witness for the amended claim C8: the sample session (no will) ends in
error; nothing is routed and the session lands in the registry. -/
theorem C8_amended_witness :
    handleClientEnd sampleTopics sampleSession [] .errClosed =
      some (sampleTopics, [], addSession [] (dcOfActive sampleSession)) :=
  (C8_amended sampleTopics sampleSession []).2.1 rfl

/-- Claim C6, counterexample.  The claim says the retained message reaches
the new subscriber with QoS equal to the minimum of the requested QoS and
the retained QoS.  Subscribing to topic t at QoS 0 while it retains a QoS 2
message delivers the message at QoS 2 (with a fresh broker id), not at the
claimed minimum QoS 0; the RETAIN bit does arrive set. -/
theorem C6_counterexample :
    ((subscribeToTopicFilter c6topics sampleSession [.strTok "t"] .atMostOnce 0).map
        (fun res => res.2.1.map (fun p => (p.qos, p.retain, p.packetId))))
      = some [(QoSLevelE.exactlyOnce, true, some 2)]
  ∧ claimRetainedDeliveryQos .atMostOnce c6retained = .atMostOnce
  ∧ QoSLevelE.exactlyOnce ≠ QoSLevelE.atMostOnce := by
  refine ⟨rfl, rfl, by decide⟩

/-- Claim C6 as amended: when a new subscription matches a topic holding a
retained message, the broker immediately sends that retained message to the
subscriber through ActiveSession::origin, so the outgoing PUBLISH keeps the
retained message's own QoS, RETAIN flag and payload (a fresh broker packet
id is attached for QoS above 0); the QoS is not reduced to the minimum of
the requested and retained QoS, that minimum (against the topic maximum) is
only recorded on the new mailbox slot. -/
theorem C6_amended :
    (∀ (name : List TopicToken) (topic : ServerTopicE) (s : ActiveSessionE)
        (filt : List TopicToken) (subQos : QoSLevelE) (now : Nat)
        (r q : PublishPacketE) (s2 : ActiveSessionE),
      topicNameMatches name filt = true →
      topic.retainedMessage = some r →
      sessionOrigin s r now = some (q, s2) →
      subscribeToTopicFilter [(name, topic)] s filt subQos now =
        some (true, [q], [(name, qosMin subQos topic.maxQos)], s2))
  ∧ (∀ (s : ActiveSessionE) (pkt : PublishPacketE) (now : Nat) (q : PublishPacketE)
        (s2 : ActiveSessionE),
      sessionOrigin s pkt now = some (q, s2) →
      q.qos = pkt.qos ∧ q.retain = pkt.retain ∧ q.payload = pkt.payload ∧ q.topic = pkt.topic) := by
  constructor
  · intro name topic s filt subQos now r q s2 hm hr ho
    simp [subscribeToTopicFilter, hm, hr, ho]
  · intro s pkt now q s2 h
    unfold sessionOrigin at h
    rcases hni : sessionNextId s with ⟨ni, s1⟩
    rw [hni] at h
    cases hq : pkt.qos <;> rw [hq] at h
    · simp at h
      obtain ⟨h1, _⟩ := h
      subst h1
      exact ⟨hq, rfl, rfl, rfl⟩
    · cases ni with
      | none => simp at h
      | some i =>
          simp [alolOrigin] at h
          obtain ⟨h1, _⟩ := h
          subst h1
          exact ⟨hq, rfl, rfl, rfl⟩
    · cases ni with
      | none => simp at h
      | some i =>
          by_cases hc : containsEOP s1.qos2
              { packet := pkt, newId := i, stage := .origin,
                lastReceived := now, retryDuration := retryBase } = true
          · simp [eolOrigin, hc] at h
          · simp [eolOrigin, hc] at h
            obtain ⟨h1, _⟩ := h
            subst h1
            exact ⟨hq, rfl, rfl, rfl⟩

/-- Witness for the amended claim C6: subscribing to topic t at QoS 2
delivers the retained message as produced by ActiveSession::origin, id 2
attached, alongside a mailbox slot at the minimum QoS. -/
theorem C6_amended_witness :
    subscribeToTopicFilter c6topics sampleSession [.strTok "t"] .exactlyOnce 0 =
      some (true, [{ c6retained with packetId := some 2 }],
        [([.strTok "t"], .exactlyOnce)],
        { sampleSession with
            idGen := { last := 2, table := fun _ => false },
            qos2 := [{ packet := c6retained, newId := 2, stage := .origin,
                       lastReceived := 0, retryDuration := retryBase }] }) := by
  refine (C6_amended.1 [.strTok "t"]
    { retainedMessage := some c6retained, maxQos := .exactlyOnce }
    sampleSession [.strTok "t"] .exactlyOnce 0 c6retained
    { c6retained with packetId := some 2 } _ (by decide) rfl rfl)

/-- A non-multi head keeps the peek test false. -/
lemma peekMulti_cons_ne (t : TopicToken) (l : List TopicToken) (h : t ≠ .multi) :
    peekMulti (t :: l) = false := by
  cases t <;> simp [peekMulti] <;> exact absurd rfl h

/-- Characterization of the matcher on a filter ending in the multi-level
wildcard after a nonempty prefix: the name splits into a block matching the
prefix token by token and a suffix free of Dollar segments. -/
lemma matchesAppendMulti (pre : List TopicToken) :
    pre ≠ [] → TopicToken.multi ∉ pre →
    ∀ name, topicNameMatches name (pre ++ [TopicToken.multi]) = true ↔
      ∃ n1 n2, name = n1 ++ n2 ∧ pairwiseTokEq n1 pre = true ∧
        suffixFreeOfDollar n2 = true := by
  induction pre with
  | nil => intro h; exact absurd rfl h
  | cons f pre ih =>
    intro _ hnm name
    cases pre with
    | nil =>
      cases name with
      | nil =>
        constructor
        · intro h; simp [topicNameMatches] at h
        · rintro ⟨n1, n2, heq, hp, _⟩
          obtain ⟨h1, _⟩ := List.append_eq_nil.mp heq.symm
          subst h1
          simp [pairwiseTokEq] at hp
      | cons n ns =>
        by_cases ht : tokenEq n f = true
        · simp only [List.cons_append, List.nil_append, topicNameMatches, ht,
            if_true, peekMulti, if_pos]
          constructor
          · intro hs
            exact ⟨[n], ns, rfl, by simp [pairwiseTokEq, ht], hs⟩
          · rintro ⟨n1, n2, heq, hp, hs⟩
            match n1 with
            | [] => simp [pairwiseTokEq] at hp
            | [a] =>
                simp at heq
                obtain ⟨h1, h2⟩ := heq
                subst h2
                exact hs
            | a :: b :: rest => simp [pairwiseTokEq] at hp
        · simp only [List.cons_append, List.nil_append, topicNameMatches, ht, if_false]
          constructor
          · intro h; exact absurd h (by simp)
          · rintro ⟨n1, n2, heq, hp, _⟩
            match n1 with
            | [] => simp [pairwiseTokEq] at hp
            | [a] =>
                simp at heq
                obtain ⟨h1, _⟩ := heq
                subst h1
                simp [pairwiseTokEq, ht] at hp
            | a :: b :: rest => simp [pairwiseTokEq] at hp
    | cons g pre2 =>
      have hg : g ≠ TopicToken.multi := by
        intro h; exact hnm (by simp [h])
      have hnm2 : TopicToken.multi ∉ g :: pre2 := by
        intro h; exact hnm (List.mem_cons_of_mem _ h)
      have ihg := ih (by simp) hnm2
      simp only [List.cons_append] at ihg
      cases name with
      | nil =>
        constructor
        · intro h; simp [topicNameMatches] at h
        · rintro ⟨n1, n2, heq, hp, _⟩
          obtain ⟨h1, _⟩ := List.append_eq_nil.mp heq.symm
          subst h1
          simp [pairwiseTokEq] at hp
      | cons n ns =>
        have hpeek : ¬ peekMulti (g :: (pre2 ++ [TopicToken.multi])) = true := by
          rw [peekMulti_cons_ne g _ hg]
          simp
        by_cases ht : tokenEq n f = true
        · simp only [List.cons_append, List.append_eq, topicNameMatches]
          rw [if_pos ht, if_neg hpeek, ihg ns]
          constructor
          · rintro ⟨m1, m2, heq, hp, hs⟩
            exact ⟨n :: m1, m2, by simp [heq], by simp [pairwiseTokEq, ht, hp], hs⟩
          · rintro ⟨n1, n2, heq, hp, hs⟩
            match n1 with
            | [] => simp [pairwiseTokEq] at hp
            | a :: m1 =>
                simp at heq
                obtain ⟨h1, h2⟩ := heq
                subst h1
                simp only [pairwiseTokEq, Bool.and_eq_true] at hp
                exact ⟨m1, n2, h2, hp.2, hs⟩
        · simp only [List.cons_append, List.append_eq, topicNameMatches]
          rw [if_neg ht]
          constructor
          · intro h; exact absurd h (by simp)
          · rintro ⟨n1, n2, heq, hp, _⟩
            match n1 with
            | [] => simp [pairwiseTokEq] at hp
            | a :: m1 =>
                simp at heq
                obtain ⟨h1, _⟩ := heq
                subst h1
                simp only [pairwiseTokEq, Bool.and_eq_true] at hp
                exact (ht hp.1).elim

/-- Characterization of the matcher on the filter consisting solely of the
multi-level wildcard: only one-segment names whose token is not a Dollar
match. -/
lemma matchesOnlyMulti (name : List TopicToken) :
    topicNameMatches name [TopicToken.multi] = true ↔
      ∃ t, name = [t] ∧ tokenEq t TopicToken.multi = true := by
  cases name with
  | nil => simp [topicNameMatches]
  | cons n ns =>
    cases ns with
    | nil =>
      simp only [topicNameMatches, peekMulti]
      constructor
      · intro h
        refine ⟨n, rfl, ?_⟩
        by_cases ht : tokenEq n TopicToken.multi = true
        · exact ht
        · simp [ht] at h
      · rintro ⟨t, heq, ht⟩
        simp at heq
        subst heq
        simp [ht, topicNameMatches]
    | cons b rest =>
      simp only [topicNameMatches, peekMulti]
      constructor
      · intro h
        by_cases ht : tokenEq n TopicToken.multi = true
        · simp [ht, topicNameMatches] at h
        · simp [ht] at h
      · rintro ⟨t, heq, _⟩
        simp at heq

/-- Claim C2, counterexample.  The claim says the filter consisting solely
of the hash wildcard matches every name of any number of segments whose
first segment does not begin with a dollar, and that for a hash at position
k only the segment at position k is guarded against dollars.  The code
rejects the two-segment name a/b against the bare hash filter, and rejects
sport/a/$b against sport/hash although the dollar sits past position k. -/
theorem C2_counterexample :
    topicNameMatches [.strTok "a", .strTok "b"] [.multi] = false
  ∧ claimSolelyHashMatches [.strTok "a", .strTok "b"] = true
  ∧ topicNameMatches [.strTok "sport", .strTok "a", .dollar "$b"]
      [.strTok "sport", .multi] = false
  ∧ suffixFreeOfDollar [.strTok "a"] = true := by
  refine ⟨by decide, rfl, by decide, rfl⟩

/-- Claim C2 as amended: a filter whose final segment (at position k with
k at least 1) is the multi-level wildcard matches exactly the names that
agree with the filter token by token on segments 0 to k-1 and continue with
any suffix of length at least 0 in which no segment at all begins with a
dollar; the filter consisting solely of the wildcard matches exactly the
one-segment names not beginning with a dollar; and a filter whose first
segment is the single-level wildcard does not match a name whose first
segment begins with a dollar. -/
theorem C2_amended :
    (∀ pre name, pre ≠ [] → TopicToken.multi ∉ pre →
      (topicNameMatches name (pre ++ [TopicToken.multi]) = true ↔
        ∃ n1 n2, name = n1 ++ n2 ∧ pairwiseTokEq n1 pre = true ∧
          suffixFreeOfDollar n2 = true))
  ∧ (∀ name, topicNameMatches name [TopicToken.multi] = true ↔
        ∃ t, name = [t] ∧ tokenEq t TopicToken.multi = true)
  ∧ (∀ s ns fs, topicNameMatches (TopicToken.dollar s :: ns) (TopicToken.single :: fs) = false) := by
  refine ⟨?_, matchesOnlyMulti, ?_⟩
  · intro pre name h1 h2
    exact matchesAppendMulti pre h1 h2 name
  · intro s ns fs
    simp [topicNameMatches, tokenEq]

/-- Witness for the amended claim C2: the filter sport/hash matches the
three-segment name sport/x/y. -/
theorem C2_amended_witness :
    topicNameMatches [.strTok "sport", .strTok "x", .strTok "y"]
      [.strTok "sport", .multi] = true :=
  (C2_amended.1 [.strTok "sport"] [.strTok "sport", .strTok "x", .strTok "y"]
      (by decide) (by decide)).mpr
    ⟨[.strTok "sport"], [.strTok "x", .strTok "y"], rfl, by decide, rfl⟩

/-! ### Allocator scan lemmas (claim C10) -/

/-- One successful probe: a nonzero id different from the cursor whose
table bit is clear is returned. -/
lemma nextIdAux_found (last : Nat) (table : Nat → Bool) (curr fuel : Nat)
    (h0 : curr ≠ 0) (hl : curr ≠ last) (hf : table curr = false) :
    nextIdAux last table curr (fuel + 1) = some curr := by
  simp [nextIdAux, h0, hl, hf]

/-- One failed probe: a nonzero id different from the cursor whose table
bit is set steps the scan to the next candidate. -/
lemma nextIdAux_step (last : Nat) (table : Nat → Bool) (curr fuel : Nat)
    (h0 : curr ≠ 0) (hl : curr ≠ last) (hf : table curr = true) :
    nextIdAux last table curr (fuel + 1) = nextIdAux last table (checkedIncr curr) fuel := by
  simp [nextIdAux, h0, hl, hf]

/-- Probing id 0 skips to id 2. -/
lemma nextIdAux_zero (last : Nat) (table : Nat → Bool) (fuel : Nat) :
    nextIdAux last table 0 (fuel + 1) = nextIdAux last table 2 fuel := by
  simp [nextIdAux, checkedIncr]

/-- Reaching the nonzero cursor again ends the scan with none. -/
lemma nextIdAux_last (last : Nat) (table : Nat → Bool) (fuel : Nat) (h0 : last ≠ 0) :
    nextIdAux last table last (fuel + 1) = none := by
  simp [nextIdAux, h0]

/-- A scan over a stretch of set bits of the cursor's parity, from curr up
to the cursor itself, ends with none: the cursor's own bit is never probed
because the full-revolution exit fires first. -/
lemma scanNone (last : Nat) (table : Nat → Bool) :
    ∀ fuel curr, 0 < curr → curr ≤ last → last ≤ 65535 → curr % 2 = last % 2 →
    (∀ i, i % 2 = last % 2 → curr ≤ i → i < last → table i = true) →
    last - curr < 2 * fuel →
    nextIdAux last table curr fuel = none := by
  intro fuel
  induction fuel with
  | zero => intro curr _ _ _ _ _ hfuel; omega
  | succ fuel ih =>
    intro curr hc hcl hl hpar htab hfuel
    by_cases heq : curr = last
    · subst heq
      exact nextIdAux_last _ _ _ (by omega)
    · have hlt : curr < last := lt_of_le_of_ne hcl heq
      have hset : table curr = true := htab curr hpar le_rfl hlt
      rw [nextIdAux_step last table curr fuel (by omega) heq hset]
      have hstep : curr + 2 ≤ last := by omega
      have hinc : checkedIncr curr = curr + 2 := by
        unfold checkedIncr
        rw [if_pos (by omega)]
      rw [hinc]
      exact ih (curr + 2) (by omega) hstep hl (by omega)
        (fun i hi h2 h3 => htab i hi (by omega) h3) (by omega)

/-- A scan over a stretch of set bits of the target's parity finds the
first clear bit j, provided j sits strictly before the cursor. -/
lemma scanFinds (last : Nat) (table : Nat → Bool) (j : Nat) (hj : table j = false) :
    ∀ fuel curr, 0 < curr → curr ≤ j → j < last → last ≤ 65535 → curr % 2 = j % 2 →
    (∀ i, i % 2 = j % 2 → curr ≤ i → i < j → table i = true) →
    j - curr < 2 * fuel →
    nextIdAux last table curr fuel = some j := by
  intro fuel
  induction fuel with
  | zero => intro curr _ _ _ _ _ _ hfuel; omega
  | succ fuel ih =>
    intro curr hc hcj hjl hl hpar htab hfuel
    by_cases heq : curr = j
    · subst heq
      exact nextIdAux_found _ _ _ _ (by omega) (by omega) hj
    · have hlt : curr < j := lt_of_le_of_ne hcj heq
      have hset : table curr = true := htab curr hpar le_rfl hlt
      rw [nextIdAux_step last table curr fuel (by omega) (by omega) hset]
      have hinc : checkedIncr curr = curr + 2 := by
        unfold checkedIncr
        rw [if_pos (by omega)]
      rw [hinc]
      exact ih (curr + 2) (by omega) (by omega) hjl hl (by omega)
        (fun i hi h2 h3 => htab i hi (by omega) h3) (by omega)

/-- next_id when the immediate successor of the cursor is free. -/
lemma nextId_immediate (g : IdGen) (h0 : checkedIncr g.last ≠ 0)
    (hne : checkedIncr g.last ≠ g.last) (hfree : g.table (checkedIncr g.last) = false) :
    g.nextId = (some (checkedIncr g.last),
      { last := checkedIncr g.last, table := g.table }) := by
  unfold IdGen.nextId
  rw [show nextIdFuel = 131073 + 1 from rfl, nextIdAux_found _ _ _ _ h0 hne hfree]

/-- next_persistant_id from a successful next_id. -/
lemma nextPersistantId_of_nextId (g g1 : IdGen) (i : Nat) (h : g.nextId = (some i, g1)) :
    g.nextPersistantId = (some i, g1.setId i) := by
  unfold IdGen.nextPersistantId
  rw [h]

/-- Invariant of the client (odd) partition: after k allocations the cursor
is at 2k - 1 and exactly the odd ids up to 2k - 1 are taken. -/
lemma clientInv : ∀ k, 1 ≤ k → k ≤ 32768 →
    (clientStateAfter k).last = 2 * k - 1 ∧
    ∀ i, ((clientStateAfter k).table i = true ↔ (i % 2 = 1 ∧ i ≤ 2 * k - 1)) := by
  intro k
  induction k with
  | zero => omega
  | succ k ih =>
    intro _ hle
    by_cases hk : k = 0
    · subst hk
      have h1 : clientStateAfter 1 =
          { last := 1, table := fun j => if j = 1 then true else false } := rfl
      rw [h1]
      refine ⟨rfl, fun i => ?_⟩
      by_cases hi : i = 1 <;> simp [hi] <;> omega
    · obtain ⟨hlast, htab⟩ := ih (by omega) (by omega)
      have hc : checkedIncr (clientStateAfter k).last = 2 * k + 1 := by
        rw [hlast]
        unfold checkedIncr
        rw [if_pos (by omega)]
        omega
      have hfree : (clientStateAfter k).table (checkedIncr (clientStateAfter k).last) = false := by
        rw [hc]
        cases h : (clientStateAfter k).table (2 * k + 1) with
        | true => have := (htab (2 * k + 1)).mp h; omega
        | false => rfl
      have hnext := nextId_immediate (clientStateAfter k)
        (by rw [hc]; omega) (by rw [hc, hlast]; omega) hfree
      have hstate : clientStateAfter (k + 1) =
          (({ last := checkedIncr (clientStateAfter k).last,
              table := (clientStateAfter k).table } : IdGen)).setId
            (checkedIncr (clientStateAfter k).last) := by
        show ((clientStateAfter k).nextPersistantId).2 = _
        rw [nextPersistantId_of_nextId _ _ _ hnext]
      rw [hstate, hc]
      unfold IdGen.setId
      refine ⟨by simp; omega, fun i => ?_⟩
      by_cases hi : i = 2 * k + 1
      · subst hi
        simp
        omega
      · simpa [hi] using (htab i).trans (by constructor <;> (intro h; exact ⟨h.1, by omega⟩))

/-- Invariant of the broker (even) partition: after k allocations the
cursor is at 2k and exactly the even ids from 2 up to 2k are taken. -/
lemma brokerInv : ∀ k, 1 ≤ k → k ≤ 32767 →
    (brokerStateAfter k).last = 2 * k ∧
    ∀ i, ((brokerStateAfter k).table i = true ↔ (i % 2 = 0 ∧ 2 ≤ i ∧ i ≤ 2 * k)) := by
  intro k
  induction k with
  | zero => omega
  | succ k ih =>
    intro _ hle
    by_cases hk : k = 0
    · subst hk
      have h1 : brokerStateAfter 1 =
          { last := 2, table := fun j => if j = 2 then true else false } := rfl
      rw [h1]
      refine ⟨rfl, fun i => ?_⟩
      by_cases hi : i = 2 <;> simp [hi] <;> omega
    · obtain ⟨hlast, htab⟩ := ih (by omega) (by omega)
      have hc : checkedIncr (brokerStateAfter k).last = 2 * k + 2 := by
        rw [hlast]
        unfold checkedIncr
        rw [if_pos (by omega)]
      have hfree : (brokerStateAfter k).table (checkedIncr (brokerStateAfter k).last) = false := by
        rw [hc]
        cases h : (brokerStateAfter k).table (2 * k + 2) with
        | true => have := (htab (2 * k + 2)).mp h; omega
        | false => rfl
      have hnext := nextId_immediate (brokerStateAfter k)
        (by rw [hc]; omega) (by rw [hc, hlast]; omega) hfree
      have hstate : brokerStateAfter (k + 1) =
          (({ last := checkedIncr (brokerStateAfter k).last,
              table := (brokerStateAfter k).table } : IdGen)).setId
            (checkedIncr (brokerStateAfter k).last) := by
        show ((brokerStateAfter k).nextPersistantId).2 = _
        rw [nextPersistantId_of_nextId _ _ _ hnext]
      rw [hstate, hc]
      unfold IdGen.setId
      refine ⟨by simp; omega, fun i => ?_⟩
      by_cases hi : i = 2 * k + 2
      · subst hi
        simp
        omega
      · simpa [hi] using (htab i).trans (by constructor <;> (intro h; omega))

/-- next_id projected to its first component when the scan fails. -/
lemma nextId_fst_none (g : IdGen)
    (h : nextIdAux g.last g.table (checkedIncr g.last) nextIdFuel = none) :
    (g.nextId).1 = none := by
  unfold IdGen.nextId
  rw [h]

/-- next_id projected to its first component when the scan succeeds. -/
lemma nextId_fst_some (g : IdGen) (i : Nat)
    (h : nextIdAux g.last g.table (checkedIncr g.last) nextIdFuel = some i) :
    (g.nextId).1 = some i := by
  unfold IdGen.nextId
  rw [h]

/-- Each of the first 32768 client-partition allocations succeeds and
returns the next odd id. -/
lemma clientAlloc : ∀ k, k < 32768 →
    ((clientStateAfter k).nextPersistantId).1 = some (2 * k + 1) := by
  intro k hk
  by_cases hk0 : k = 0
  · subst hk0
    rfl
  · obtain ⟨hlast, htab⟩ := clientInv k (by omega) (by omega)
    have hc : checkedIncr (clientStateAfter k).last = 2 * k + 1 := by
      rw [hlast]
      unfold checkedIncr
      rw [if_pos (by omega)]
      omega
    have hfree : (clientStateAfter k).table (checkedIncr (clientStateAfter k).last) = false := by
      rw [hc]
      cases h : (clientStateAfter k).table (2 * k + 1) with
      | true => have := (htab (2 * k + 1)).mp h; omega
      | false => rfl
    have hnext := nextId_immediate (clientStateAfter k)
      (by rw [hc]; omega) (by rw [hc, hlast]; omega) hfree
    rw [nextPersistantId_of_nextId _ _ _ hnext, hc]

/-- Each of the first 32767 broker-partition allocations succeeds and
returns the next even id. -/
lemma brokerAlloc : ∀ k, k < 32767 →
    ((brokerStateAfter k).nextPersistantId).1 = some (2 * k + 2) := by
  intro k hk
  by_cases hk0 : k = 0
  · subst hk0
    rfl
  · obtain ⟨hlast, htab⟩ := brokerInv k (by omega) (by omega)
    have hc : checkedIncr (brokerStateAfter k).last = 2 * k + 2 := by
      rw [hlast]
      unfold checkedIncr
      rw [if_pos (by omega)]
    have hfree : (brokerStateAfter k).table (checkedIncr (brokerStateAfter k).last) = false := by
      rw [hc]
      cases h : (brokerStateAfter k).table (2 * k + 2) with
      | true => have := (htab (2 * k + 2)).mp h; omega
      | false => rfl
    have hnext := nextId_immediate (brokerStateAfter k)
      (by rw [hc]; omega) (by rw [hc, hlast]; omega) hfree
    rw [nextPersistantId_of_nextId _ _ _ hnext, hc]

/-- free_id keeps the cursor. -/
lemma IdGen.freeId_last (g : IdGen) (i : Nat) : (g.freeId i).last = g.last := rfl

/-- free_id clears exactly the released bit. -/
lemma IdGen.freeId_table (g : IdGen) (i j : Nat) :
    (g.freeId i).table j = if j = i then false else g.table j := rfl

/-- After 32768 client allocations every odd id is taken and next_id scans
a full revolution to none.  The same scan argument applies when the table
has been changed only at the cursor id 65535, since the scan exits on
reaching the cursor without probing its bit: that is the second
conclusion. -/
lemma clientScanStuck :
    ∀ table2 : Nat → Bool,
    (∀ i, i % 2 = 1 → 1 ≤ i → i < 65535 → table2 i = true) →
    nextIdAux 65535 table2 (checkedIncr 65535) nextIdFuel = none := by
  intro table2 htab
  have hci : checkedIncr 65535 = 1 := rfl
  rw [hci]
  refine scanNone 65535 table2 nextIdFuel 1 (by omega) (by omega) (by omega) (by omega) ?_
    (by simp [nextIdFuel])
  intro i hi h1 h2
  exact htab i (by omega) h1 h2

/-- The 32769th client allocation fails: the partition is full. -/
lemma clientFull : ((clientStateAfter 32768).nextId).1 = none := by
  obtain ⟨hlast, htab⟩ := clientInv 32768 (by omega) (by omega)
  have hscan : nextIdAux (clientStateAfter 32768).last (clientStateAfter 32768).table
      (checkedIncr (clientStateAfter 32768).last) nextIdFuel = none := by
    have hl : (clientStateAfter 32768).last = 65535 := by omega
    rw [hl]
    refine clientScanStuck _ ?_
    intro i hi h1 h2
    exact (htab i).mpr ⟨hi, by omega⟩
  exact nextId_fst_none _ hscan

/-- Releasing the cursor id 65535 of the full client partition does not
revive allocation: the scan still returns none. -/
lemma clientReleaseLast : (((clientStateAfter 32768).freeId 65535).nextId).1 = none := by
  obtain ⟨hlast, htab⟩ := clientInv 32768 (by omega) (by omega)
  have hl : ((clientStateAfter 32768).freeId 65535).last = 65535 := by
    rw [IdGen.freeId_last]
    omega
  have hscan : nextIdAux ((clientStateAfter 32768).freeId 65535).last
      ((clientStateAfter 32768).freeId 65535).table
      (checkedIncr ((clientStateAfter 32768).freeId 65535).last) nextIdFuel = none := by
    rw [hl]
    refine clientScanStuck _ ?_
    intro i hi h1 h2
    rw [IdGen.freeId_table, if_neg (by omega)]
    exact (htab i).mpr ⟨hi, by omega⟩
  exact nextId_fst_none _ hscan

/-- Releasing any non-cursor odd id of the full client partition makes the
next allocation return exactly that id. -/
lemma clientRelease (j : Nat) (hodd : j % 2 = 1) (hlt : j < 65535) :
    (((clientStateAfter 32768).freeId j).nextId).1 = some j := by
  obtain ⟨hlast, htab⟩ := clientInv 32768 (by omega) (by omega)
  have hl : ((clientStateAfter 32768).freeId j).last = 65535 := by
    rw [IdGen.freeId_last]
    omega
  have hscan : nextIdAux ((clientStateAfter 32768).freeId j).last
      ((clientStateAfter 32768).freeId j).table
      (checkedIncr ((clientStateAfter 32768).freeId j).last) nextIdFuel = some j := by
    rw [hl]
    have hci : checkedIncr 65535 = 1 := rfl
    rw [hci]
    refine scanFinds 65535 _ j (by rw [IdGen.freeId_table, if_pos rfl]) nextIdFuel 1
      (by omega) (by omega) (by omega) (by omega) (by omega) ?_
      (by simp only [nextIdFuel]; omega)
    intro i hi h1 h2
    rw [IdGen.freeId_table, if_neg (by omega)]
    exact (htab i).mpr ⟨by omega, by omega⟩
  exact nextId_fst_some _ _ hscan

/-- The 32768th broker allocation fails: the even partition holds only
32767 usable ids (id 0 is excluded). -/
lemma brokerFull : ((brokerStateAfter 32767).nextId).1 = none := by
  obtain ⟨hlast, htab⟩ := brokerInv 32767 (by omega) (by omega)
  have hscan : nextIdAux (brokerStateAfter 32767).last (brokerStateAfter 32767).table
      (checkedIncr (brokerStateAfter 32767).last) nextIdFuel = none := by
    have hl : (brokerStateAfter 32767).last = 65534 := by omega
    rw [hl]
    have hci : checkedIncr 65534 = 0 := rfl
    rw [hci, show nextIdFuel = 131073 + 1 from rfl, nextIdAux_zero]
    refine scanNone 65534 _ 131073 2 (by omega) (by omega) (by omega) (by omega) ?_ (by omega)
    intro i hi h1 h2
    exact (htab i).mpr ⟨by omega, by omega, by omega⟩
  exact nextId_fst_none _ hscan

/-- Releasing any non-cursor even id of the full broker partition makes the
next allocation return exactly that id. -/
lemma brokerRelease (j : Nat) (heven : j % 2 = 0) (h2 : 2 ≤ j) (hlt : j < 65534) :
    (((brokerStateAfter 32767).freeId j).nextId).1 = some j := by
  obtain ⟨hlast, htab⟩ := brokerInv 32767 (by omega) (by omega)
  have hl : ((brokerStateAfter 32767).freeId j).last = 65534 := by
    rw [IdGen.freeId_last]
    omega
  have hscan : nextIdAux ((brokerStateAfter 32767).freeId j).last
      ((brokerStateAfter 32767).freeId j).table
      (checkedIncr ((brokerStateAfter 32767).freeId j).last) nextIdFuel = some j := by
    rw [hl]
    have hci : checkedIncr 65534 = 0 := rfl
    rw [hci, show nextIdFuel = 131073 + 1 from rfl, nextIdAux_zero]
    refine scanFinds 65534 _ j (by rw [IdGen.freeId_table, if_pos rfl]) 131073 2
      (by omega) (by omega) (by omega) (by omega) (by omega) ?_ (by omega)
    intro i hi h1 h2
    rw [IdGen.freeId_table, if_neg (by omega)]
    exact (htab i).mpr ⟨by omega, by omega, by omega⟩
  exact nextId_fst_some _ _ hscan

/-- Claim C10, counterexample.  The claim says that after filling a
partition, releasing any one previously allocated id lets the next
allocation succeed.  Id 65535 is the 32768th id the client partition
allocates, hence previously allocated, and it is where the cursor rests:
after releasing it the scan makes a full revolution and exits on reaching
the cursor without probing its now-free bit, so allocation still returns
none. -/
theorem C10_counterexample :
    ((clientStateAfter 32767).nextPersistantId).1 = some 65535
  ∧ (((clientStateAfter 32768).freeId 65535).nextId).1 = none := by
  constructor
  · have h := clientAlloc 32767 (by omega)
    simpa using h
  · exact clientReleaseLast

/-- Claim C10 as amended: the client (odd) partition yields the odd ids 1,
3, ..., 65535 in its first 2 to the 15 allocations and the next allocation
then returns none; the broker (even) partition yields 2, 4, ..., 65534 in
its first 2 to the 15 minus 1 allocations and the next allocation then
returns none (so 2 to the 15 successes are impossible there, id 0 being
excluded); and in either full partition, releasing any one previously
allocated id other than the one the cursor rests on (the most recently
allocated id) makes the next allocation succeed and return exactly that id
of the partition's parity. -/
theorem C10_amended :
    (∀ k, k < 32768 → ((clientStateAfter k).nextPersistantId).1 = some (2 * k + 1))
  ∧ ((clientStateAfter 32768).nextId).1 = none
  ∧ (∀ j, j % 2 = 1 → j < 65535 →
      (((clientStateAfter 32768).freeId j).nextId).1 = some j)
  ∧ (∀ k, k < 32767 → ((brokerStateAfter k).nextPersistantId).1 = some (2 * k + 2))
  ∧ ((brokerStateAfter 32767).nextId).1 = none
  ∧ (∀ j, j % 2 = 0 → 2 ≤ j → j < 65534 →
      (((brokerStateAfter 32767).freeId j).nextId).1 = some j) :=
  ⟨clientAlloc, clientFull, fun j h1 h2 => clientRelease j h1 h2,
   brokerAlloc, brokerFull, fun j h1 h2 h3 => brokerRelease j h1 h2 h3⟩

/-- Witness for the amended claim C10: releasing the non-cursor id 1 from
the full client partition makes the next allocation return id 1. -/
theorem C10_amended_witness :
    (((clientStateAfter 32768).freeId 1).nextId).1 = some 1 :=
  C10_amended.2.2.1 1 rfl (by omega)

end Mqtt
